import Mathlib

/-!
A shallow embedding in Lean 4 of the exchange-adapter module `exchange.py`
(classes `narkasa`, `biconomy` and `toobit` over `BaseExchange`), together
with theorems settling specification claims about it.

Modelling conventions:
* JSON values are modelled by the inductive type `JVal`;
* Python floats are modelled by `ℚ` (all numerals appearing in the claims
  are exactly representable);
* Python exceptions are modelled by `Except PyErr`;
* Python dicts are modelled by insertion-ordered association lists with
  last-writer-wins in-place update, mirroring CPython dict semantics;
* the HTTP transport (`BaseExchange.fetch_data`) is modelled by a function
  `String → Except PyErr JVal` giving, per requested symbol/endpoint, either
  the parsed JSON body or a raised error (non-2xx status or JSON parse
  failure both raise inside `fetch_data`, modelled as `PyErr.transportError`).
-/

set_option linter.unusedVariables false

/-- Python exceptions that the embedded code can raise. -/
inductive PyErr where
  | typeError
  | valueError
  | keyError
  | indexError
  | attributeError
  | transportError
deriving DecidableEq, Repr

/-- The normalized ticker record (dataclass `TickerInfo`). -/
structure TickerInfo where
  last : ℚ
  baseVolume : ℚ
  quoteVolume : ℚ
deriving DecidableEq, Repr

/-- JSON values as decoded by `resp.json()`. -/
inductive JVal where
  | jnull
  | jstr (s : String)
  | jnum (q : ℚ)
  | jarr (elems : List JVal)
  | jobj (fields : List (String × JVal))

/- ### String helpers (kernel-computable replacements for library loops) -/

/-- True when `pat` is a leading segment of `s`. -/
def leadsWith : List Char → List Char → Bool
  | [], _ => true
  | _ :: _, [] => false
  | p :: ps, c :: cs => p == c && leadsWith ps cs

/-- Removes `pat` from the front of `s`, if it is a leading segment. -/
def chopLead : List Char → List Char → Option (List Char)
  | [], s => some s
  | _ :: _, [] => none
  | p :: ps, c :: cs => if p == c then chopLead ps cs else none

/-- Fuel-driven core of Python `str.replace` (leftmost, non-overlapping,
replaced text is not rescanned). The fuel is always instantiated with the
length of the scanned list, which suffices for non-empty patterns. -/
def replaceFuel (pat rep : List Char) : ℕ → List Char → List Char
  | 0, s => s
  | Nat.succ n, [] => []
  | Nat.succ n, c :: cs =>
      match chopLead pat (c :: cs) with
      | some rest => rep ++ replaceFuel pat rep n rest
      | none => c :: replaceFuel pat rep n cs

/-- Python `s.replace(pat, rep)` for non-empty `pat`. -/
def pyReplace (s pat rep : String) : String :=
  String.mk (replaceFuel pat.data rep.data s.data.length s.data)

/-- Python `s.endswith(suf)`. -/
def trailsWith (s suf : String) : Bool :=
  leadsWith suf.data.reverse s.data.reverse

/-- Splits at the first occurrence of `sep`: returns the segment before it
and, when `sep` occurs, the remainder after it. -/
def breakOn (sep : Char) : List Char → List Char × Option (List Char)
  | [] => ([], none)
  | c :: cs =>
      if c == sep then ([], some cs)
      else
        let r := breakOn sep cs
        (c :: r.1, r.2)

/-- Accumulating decimal value of a digit list. -/
def natOfDigits : List Char → ℕ → ℕ
  | [], acc => acc
  | c :: cs, acc => natOfDigits cs (acc * 10 + (c.toNat - 48))

/-- Model of the Python builtin `float()` applied to a string: an optional
sign followed by decimal digits with at most one point (the fragment of
`float`'s grammar exercised by this module; exponents, `inf`, `nan` and
surrounding whitespace do not occur in the data handled here). -/
def parseFloatQ (s : String) : Option ℚ :=
  let signed : Bool × List Char :=
    match s.data with
    | '-' :: rest => (true, rest)
    | cs => (false, cs)
  let body := signed.2
  let br := breakOn '.' body
  match br.2 with
  | none =>
      if !body.isEmpty && body.all Char.isDigit then
        some (if signed.1 then -(natOfDigits body 0 : ℚ) else (natOfDigits body 0 : ℚ))
      else none
  | some fp =>
      let ip := br.1
      if (!ip.isEmpty || !fp.isEmpty) && ip.all Char.isDigit && fp.all Char.isDigit
          && !(fp.contains '.') then
        let mag : ℚ := (natOfDigits ip 0 : ℚ) + (natOfDigits fp 0 : ℚ) / (10 : ℚ) ^ fp.length
        some (if signed.1 then -mag else mag)
      else none

/-- One character of a canonical symbol segment: uppercase ASCII or digit. -/
def isUpperAlnumChar (c : Char) : Bool :=
  c.isUpper || c.isDigit

/-- The canonical-symbol predicate of the specification: the regular
expression `[A-Z0-9]+/[A-Z0-9]+` anchored at both ends (uppercase segments
separated by exactly one slash). -/
def isCanonicalSymbol (s : String) : Bool :=
  let br := breakOn '/' s.data
  match br.2 with
  | some rest =>
      !br.1.isEmpty && !rest.isEmpty && br.1.all isUpperAlnumChar
        && rest.all isUpperAlnumChar && !(rest.contains '/')
  | none => false

/- ### JSON-value operations mirroring the Python primitives -/

/-- First-match lookup in a JSON object's field list. -/
def lookupField : List (String × JVal) → String → Option JVal
  | [], _ => none
  | p :: rest, key => if p.1 == key then some p.2 else lookupField rest key

/-- Python `x.get(key, dflt)`: defaulting lookup on a dict; raises
`AttributeError` when `x` is not a dict. -/
def jget (v : JVal) (key : String) (dflt : JVal) : Except PyErr JVal :=
  match v with
  | .jobj fs => .ok ((lookupField fs key).getD dflt)
  | _ => .error .attributeError

/-- Python `x[key]` for a string key: raises `KeyError` when the key is
absent from a dict, `TypeError` on non-subscriptable or non-dict values. -/
def jindex (v : JVal) (key : String) : Except PyErr JVal :=
  match v with
  | .jobj fs =>
      match lookupField fs key with
      | some x => .ok x
      | none => .error .keyError
  | _ => .error .typeError

/-- Python `x[0]`: first element of a list (IndexError when empty); a dict
with string keys has no key `0` (KeyError); a non-empty string yields its
first character as a string; otherwise TypeError. -/
def jindex0 (v : JVal) : Except PyErr JVal :=
  match v with
  | .jarr (x :: _) => .ok x
  | .jarr [] => .error .indexError
  | .jobj _ => .error .keyError
  | .jstr s =>
      match s.data with
      | c :: _ => .ok (.jstr (String.mk [c]))
      | [] => .error .indexError
  | _ => .error .typeError

/-- Python `for x in v`: lists yield elements, strings yield one-character
strings, dicts yield their keys; numbers and `None` are not iterable. -/
def jiter (v : JVal) : Except PyErr (List JVal) :=
  match v with
  | .jarr xs => .ok xs
  | .jstr s => .ok (s.data.map (fun c => .jstr (String.mk [c])))
  | .jobj fs => .ok (fs.map (fun p => .jstr p.1))
  | _ => .error .typeError

/-- Coercion used by string concatenation and URL building: anything other
than a string raises `TypeError`. -/
def asStr : JVal → Except PyErr String
  | .jstr s => .ok s
  | _ => .error .typeError

/-- Python truthiness of a JSON value. -/
def truthy : JVal → Bool
  | .jnull => false
  | .jstr s => !s.isEmpty
  | .jnum q => !(decide (q = 0))
  | .jarr xs => !xs.isEmpty
  | .jobj fs => !fs.isEmpty

/-- Python `v == lit` for a string literal `lit`: true exactly when `v` is
that string (values of other JSON types never equal a `str`). -/
def keyEqStr (v : JVal) (lit : String) : Bool :=
  match v with
  | .jstr s => s == lit
  | _ => false

/-- Python `==` between hashable (scalar) JSON values, as used for dict-key
comparison; values of different scalar types are unequal here (the embedded
payloads never mix numeric keys with booleans). -/
def scalarEq : JVal → JVal → Bool
  | .jnull, .jnull => true
  | .jstr a, .jstr b => a == b
  | .jnum a, .jnum b => decide (a = b)
  | _, _ => false

/-- Containers are unhashable in Python and cannot be dict keys. -/
def isUnhashable : JVal → Bool
  | .jarr _ => true
  | .jobj _ => true
  | _ => false

/-- Model of the Python builtin `float()`: numbers pass through, strings are
parsed (`ValueError` on failure), anything else raises `TypeError`. -/
def pyFloat : JVal → Except PyErr ℚ
  | .jnum q => .ok q
  | .jstr s =>
      match parseFloatQ s with
      | some q => .ok q
      | none => .error .valueError
  | _ => .error .typeError

/- ### Dict operations (insertion-ordered association lists) -/

/-- Python `d[k] = v` for a string-keyed dict: in-place overwrite of the
entry holding the key (a dict holds each key at most once, so replacing the
first occurrence models the overwrite), append otherwise. -/
def dictSetS {α : Type} (d : List (String × α)) (k : String) (v : α) :
    List (String × α) :=
  match d with
  | [] => [(k, v)]
  | p :: rest => if p.1 == k then (k, v) :: rest else p :: dictSetS rest k v

/-- Python `d[k]` lookup for a string-keyed dict. -/
def dictGetS {α : Type} (d : List (String × α)) (k : String) : Option α :=
  match d with
  | [] => none
  | p :: rest => if p.1 == k then some p.2 else dictGetS rest k

/-- Python `d[k] = v` for a dict keyed by scalar JSON values. -/
def dictSetJ {α : Type} (d : List (JVal × α)) (k : JVal) (v : α) :
    List (JVal × α) :=
  match d with
  | [] => [(k, v)]
  | p :: rest => if scalarEq p.1 k then (k, v) :: rest else p :: dictSetJ rest k v

/-- Python `d[k]` / `k in d` lookup for a dict keyed by scalar JSON values. -/
def dictLookupJ {α : Type} (d : List (JVal × α)) (k : JVal) : Option α :=
  match d with
  | [] => none
  | p :: rest => if scalarEq p.1 k then some p.2 else dictLookupJ rest k

/-- Python `result.update(m)`: sets every entry of `m`, in order, into `d`. -/
def dictUpdate {α : Type} (d m : List (String × α)) : List (String × α) :=
  m.foldl (fun acc p => dictSetS acc p.1 p.2) d

/-- Folds a list of key/value pairs into a string-keyed dict, in order. -/
def applyPairs {α : Type} (ps : List (String × α)) (d : List (String × α)) :
    List (String × α) :=
  ps.foldl (fun acc p => dictSetS acc p.1 p.2) d

/-- Folds `(market, native)` pairs into a `narkasa` symbols dict: for each
pair, the native symbol becomes the key and the market the value. -/
def applyPairsJ (ps : List (String × JVal)) (d : List (JVal × String)) :
    List (JVal × String) :=
  ps.foldl (fun acc p => dictSetJ acc p.2 p.1) d

/-- Decidable equality of embedded results. -/
instance {ε α : Type} [DecidableEq ε] [DecidableEq α] : DecidableEq (Except ε α) := by
  intro a b
  cases a <;> cases b
  case error.error e1 e2 =>
    exact if h : e1 = e2 then .isTrue (by rw [h])
      else .isFalse (by intro hc; cases hc; exact h rfl)
  case ok.ok a1 a2 =>
    exact if h : a1 = a2 then .isTrue (by rw [h])
      else .isFalse (by intro hc; cases hc; exact h rfl)
  case error.ok e1 a2 => exact .isFalse (by intro hc; cases hc)
  case ok.error a1 e2 => exact .isFalse (by intro hc; cases hc)

/- ### class biconomy -/

/-- `biconomy._convert_symbol_to_ccxt`: replace `_` by `/` in a string
input; `TypeError` otherwise. -/
def biconomy_convert (v : JVal) : Except PyErr String :=
  match v with
  | .jstr s => .ok (pyReplace s "_" "/")
  | _ => .error .typeError

/-- The `for ticker in tickers` loop of `biconomy.normalize_data`. -/
def biconomyTickLoop :
    List JVal → List (String × TickerInfo) →
      Except PyErr (List (String × TickerInfo))
  | [], acc => .ok acc
  | tk :: rest, acc => do
      let symv ← jget tk "symbol" (.jstr "")
      let symbol ← biconomy_convert symv
      let lastv ← jget tk "last" (.jnum 0)
      let last ← pyFloat lastv
      let volv ← jget tk "vol" (.jnum 0)
      let vol ← pyFloat volv
      biconomyTickLoop rest (dictSetS acc symbol ⟨last, vol, 0⟩)

/-- `biconomy.normalize_data`. -/
def biconomy_normalize (data : JVal) :
    Except PyErr (List (String × TickerInfo)) := do
  let tickers ← jget data "ticker" (.jarr [])
  let xs ← jiter tickers
  biconomyTickLoop xs []

/-- `biconomy.fetch_tickers`: one bulk transport call, then normalize. -/
def biconomy_fetch_tickers (resp : Except PyErr JVal) :
    Except PyErr (List (String × TickerInfo)) := do
  let data ← resp
  biconomy_normalize data

/- ### class narkasa -/

/-- The mutable registry of a `narkasa` instance: `markets` maps the
canonical market string to the exchange-native symbol (an arbitrary JSON
value taken from the listing payload), `symbols` maps the native symbol
back to the canonical market string. -/
structure NarkasaState where
  markets : List (String × JVal)
  symbols : List (JVal × String)

/-- `narkasa._convert_symbol_to_ccxt`: registry lookup; `ValueError` on a
string absent from `self.symbols`, `TypeError` on non-string input. -/
def narkasa_convert (st : NarkasaState) (v : JVal) : Except PyErr String :=
  match v with
  | .jstr s =>
      match dictLookupJ st.symbols (.jstr s) with
      | some m => .ok m
      | none => .error .valueError
  | _ => .error .typeError

/-- `narkasa.normalize_data`. -/
def narkasa_normalize (st : NarkasaState) (data : JVal) :
    Except PyErr (List (String × TickerInfo)) := do
  let ticker ← jget data "market" (.jobj [])
  let symv ← jget ticker "symbol" (.jstr "")
  let symbol ← narkasa_convert st symv
  let lastv ← jget ticker "last" (.jnum 0)
  let last ← pyFloat lastv
  let bvv ← jget ticker "volumeQty" (.jnum 0)
  let bv ← pyFloat bvv
  let qvv ← jget ticker "volume" (.jnum 0)
  let qv ← pyFloat qvv
  return [(symbol, ⟨last, bv, qv⟩)]

/-- The body of one iteration of the `for symbol in symbols` loop of
`narkasa.load_markets`: reads `firstSymbol`, `secondSymbol` and `symbol`
with `.get`, and either skips the entry (when base or quote is falsy) or
yields the `(market, symbol_name)` pair to be registered; the `TypeError`s
of string concatenation and of an unhashable dict key are raised here. -/
def narkasaStep (e : JVal) : Except PyErr (Option (String × JVal)) := do
  let base ← jget e "firstSymbol" .jnull
  let quote ← jget e "secondSymbol" .jnull
  let symName ← jget e "symbol" .jnull
  if truthy base && truthy quote then do
    let b ← asStr base
    let q ← asStr quote
    if isUnhashable symName then .error .typeError
    else return some (b ++ "/" ++ q, symName)
  else return none

/-- The registration loop of `narkasa.load_markets`. -/
def narkasaRegisterLoop : List JVal → NarkasaState → Except PyErr NarkasaState
  | [], st => .ok st
  | e :: rest, st => do
      match (← narkasaStep e) with
      | some p =>
          narkasaRegisterLoop rest
            ⟨dictSetS st.markets p.1 p.2, dictSetJ st.symbols p.2 p.1⟩
      | none => narkasaRegisterLoop rest st

/-- `narkasa.load_markets`: clears both registry dicts, fetches the listing,
returns silently unless the payload code is `"00000"`, and otherwise
registers every listed market with base and quote present. The prior
registry `st` is never read (the method starts by clearing `self.markets`
and `self.symbols`). -/
def narkasa_load_markets (st : NarkasaState) (resp : Except PyErr JVal) :
    Except PyErr NarkasaState := do
  let data ← resp
  let code ← jget data "code" .jnull
  if keyEqStr code "00000" then do
    let ms ← jget data "markets" (.jarr [])
    let xs ← jiter ms
    narkasaRegisterLoop xs ⟨[], []⟩
  else return ⟨[], []⟩

/-- The `(market, symbol_name)` pairs that `narkasa.load_markets` would
register from a listing, in order (entries with falsy base or quote
dropped), failing exactly where the registration loop fails. -/
def narkasaKeptEntries : List JVal → Except PyErr (List (String × JVal))
  | [] => .ok []
  | e :: rest => do
      match (← narkasaStep e) with
      | some p => return p :: (← narkasaKeptEntries rest)
      | none => narkasaKeptEntries rest

/-- The kept `(market, symbol_name)` pairs of a whole discovery call. -/
def narkasaKeptOf (resp : Except PyErr JVal) :
    Except PyErr (List (String × JVal)) := do
  let data ← resp
  let code ← jget data "code" .jnull
  if keyEqStr code "00000" then do
    let ms ← jget data "markets" (.jarr [])
    let xs ← jiter ms
    narkasaKeptEntries xs
  else return []

/-- The `for symbol in self.markets.values()` loop of
`narkasa.fetch_tickers`: per native symbol, build the URL (string
concatenation raises `TypeError` on a non-string value), fetch, and merge
the normalized single-ticker dict only when `data["code"]` equals
`"00000"`; all other exceptions propagate and abort the batch. -/
def narkasaFetchLoop (st : NarkasaState) (t : String → Except PyErr JVal) :
    List JVal → List (String × TickerInfo) →
      Except PyErr (List (String × TickerInfo))
  | [], acc => .ok acc
  | v :: rest, acc => do
      let s ← asStr v
      let data ← t s
      let code ← jindex data "code"
      if keyEqStr code "00000" then do
        let m ← narkasa_normalize st data
        narkasaFetchLoop st t rest (dictUpdate acc m)
      else narkasaFetchLoop st t rest acc

/-- `narkasa.fetch_tickers`: loads markets when the registry is empty, then
runs the per-symbol loop. `t` is the per-symbol transport, `mkResp` the
market-listing response used by the implicit `load_markets`. -/
def narkasa_fetch_tickers (t : String → Except PyErr JVal)
    (mkResp : Except PyErr JVal) (st : NarkasaState) :
    Except PyErr (List (String × TickerInfo)) := do
  let st ← if st.markets.isEmpty then narkasa_load_markets st mkResp
           else pure st
  narkasaFetchLoop st t (st.markets.map Prod.snd) []

/- ### class toobit -/

/-- `toobit._convert_symbol_to_ccxt`: insert `/` before a trailing `USDT`
(via `str.replace`, hence all occurrences of `USDT` are rewritten); strings
not ending in `USDT` are returned unchanged; `TypeError` otherwise. -/
def toobit_convert (v : JVal) : Except PyErr String :=
  match v with
  | .jstr s =>
      .ok (if trailsWith s "USDT" then pyReplace s "USDT" "/USDT" else s)
  | _ => .error .typeError

/-- The body of one iteration of the `for symbol in symbols` loop of
`toobit.load_markets`: subscript access `symbol["baseAsset"]` and
`symbol["quoteAsset"]` (raising `KeyError` when absent), then either skip
(falsy base or quote) or yield the `(market, native)` pair. -/
def toobitStep (e : JVal) : Except PyErr (Option (String × String)) := do
  let base ← jindex e "baseAsset"
  let quote ← jindex e "quoteAsset"
  if truthy base && truthy quote then do
    let b ← asStr base
    let q ← asStr quote
    return some (b ++ "/" ++ q, b ++ q)
  else return none

/-- The registration loop of `toobit.load_markets`; note that it mutates
the existing dict in place, it does not clear it. -/
def toobitRegisterLoop :
    List JVal → List (String × String) → Except PyErr (List (String × String))
  | [], mkts => .ok mkts
  | e :: rest, mkts => do
      match (← toobitStep e) with
      | some p => toobitRegisterLoop rest (dictSetS mkts p.1 p.2)
      | none => toobitRegisterLoop rest mkts

/-- `toobit.load_markets`: fetches the listing and registers every symbol
with truthy base and quote assets into the existing `self.markets`. -/
def toobit_load_markets (mkts : List (String × String))
    (resp : Except PyErr JVal) : Except PyErr (List (String × String)) := do
  let data ← resp
  let symbols ← jget data "symbols" (.jarr [])
  let xs ← jiter symbols
  toobitRegisterLoop xs mkts

/-- The `(market, native)` pairs a `toobit.load_markets` call derives from
its listing, in order, failing exactly where the registration loop fails. -/
def toobitMarketPairs : List JVal → Except PyErr (List (String × String))
  | [] => .ok []
  | e :: rest => do
      match (← toobitStep e) with
      | some p => return p :: (← toobitMarketPairs rest)
      | none => toobitMarketPairs rest

/-- The derived `(market, native)` pairs of a whole discovery call. -/
def toobitPairsOf (resp : Except PyErr JVal) :
    Except PyErr (List (String × String)) := do
  let data ← resp
  let symbols ← jget data "symbols" (.jarr [])
  let xs ← jiter symbols
  toobitMarketPairs xs

/-- `toobit.normalize_data`: reads `data[0]` unguarded, converts the `s`
field (fetched with `.get` and no default), and extracts `c`, `v`, `qv`
with default `0`. -/
def toobit_normalize (data : JVal) :
    Except PyErr (List (String × TickerInfo)) := do
  let result ← jindex0 data
  let symv ← jget result "s" .jnull
  let symbol ← toobit_convert symv
  let lastv ← jget result "c" (.jnum 0)
  let last ← pyFloat lastv
  let bvv ← jget result "v" (.jnum 0)
  let bv ← pyFloat bvv
  let qvv ← jget result "qv" (.jnum 0)
  let qv ← pyFloat qvv
  return [(symbol, ⟨last, bv, qv⟩)]

/-- The `for symbol in self.markets.values()` loop of
`toobit.fetch_tickers`: no error handling at all; any per-symbol failure
propagates and aborts the batch. -/
def toobitFetchLoop (t : String → Except PyErr JVal) :
    List String → List (String × TickerInfo) →
      Except PyErr (List (String × TickerInfo))
  | [], acc => .ok acc
  | s :: rest, acc => do
      let data ← t s
      let m ← toobit_normalize data
      toobitFetchLoop t rest (dictUpdate acc m)

/-- `toobit.fetch_tickers`. -/
def toobit_fetch_tickers (t : String → Except PyErr JVal)
    (mkResp : Except PyErr JVal) (mkts : List (String × String)) :
    Except PyErr (List (String × TickerInfo)) := do
  let mkts ← if mkts.isEmpty then toobit_load_markets mkts mkResp
             else pure mkts
  toobitFetchLoop t (mkts.map Prod.snd) []

/- ### General lemmas about the embedding -/

theorem exbind_ok {ε α β : Type} (a : α) (f : α → Except ε β) :
    (Except.ok a >>= f) = f a := rfl

theorem exbind_err {ε α β : Type} (e : ε) (f : α → Except ε β) :
    ((Except.error e : Except ε α) >>= f) = .error e := rfl

theorem exmap_ok {ε α β : Type} (a : α) (f : α → β) :
    (f <$> (Except.ok a : Except ε α)) = .ok (f a) := rfl

theorem expure {ε α : Type} (a : α) : (pure a : Except ε α) = .ok a := rfl

theorem mem_dictSetS {α : Type} {d : List (String × α)} {k : String} {v : α}
    {p : String × α} (hp : p ∈ dictSetS d k v) : p ∈ d ∨ p = (k, v) := by
  induction d with
  | nil =>
      simp only [dictSetS, List.mem_singleton] at hp
      exact Or.inr hp
  | cons q rest ih =>
      rw [dictSetS] at hp
      by_cases hqk : q.1 == k
      · rw [if_pos hqk] at hp
        rcases List.mem_cons.mp hp with h | h
        · exact Or.inr h
        · exact Or.inl (List.mem_cons_of_mem _ h)
      · rw [if_neg hqk] at hp
        rcases List.mem_cons.mp hp with h | h
        · left; rw [h]; exact List.mem_cons_self _ _
        · rcases ih h with h2 | h2
          · exact Or.inl (List.mem_cons_of_mem _ h2)
          · exact Or.inr h2

theorem biconomyTickLoop_qv (xs : List JVal) :
    ∀ acc r, biconomyTickLoop xs acc = .ok r →
      (∀ p ∈ acc, p.2.quoteVolume = 0) → ∀ p ∈ r, p.2.quoteVolume = 0 := by
  induction xs with
  | nil =>
      intro acc r h hacc
      simp only [biconomyTickLoop] at h
      cases h
      exact hacc
  | cons tk rest ih =>
      intro acc r h hacc
      simp only [biconomyTickLoop, Bind.bind, Except.bind] at h
      repeat' split at h
      all_goals first
        | exact Except.noConfusion h
        | (refine ih _ _ h ?_
           intro p hp
           rcases mem_dictSetS hp with hp2 | hp3
           · exact hacc p hp2
           · rw [hp3])

/- ### Claim C2 -/

/-- Claim C2, counterexample: on a market-listing response whose
application-level code is not `"00000"`, `narkasa.load_markets` does not
raise any error — it returns normally (with the registry wiped to empty),
so no `DiscoveryFailed` is propagated to the caller, contrary to the
claim. -/
theorem C2_counterexample :
    narkasa_load_markets ⟨[("E/F", .jstr "EF")], [(.jstr "EF", "E/F")]⟩
      (.ok (.jobj [("code", .jstr "99999")])) = .ok ⟨[], []⟩ := by rfl

/-- Claim C2, amended: when the market-listing endpoint's response carries a
non-success application-level code, `narkasa.load_markets` returns normally
(silently — no error is raised or propagated), and the registry is left
empty: it is cleared at entry and the non-success branch registers nothing,
so it is never half-populated (though the prior contents are discarded
rather than kept). -/
theorem C2_amended (st : NarkasaState) (data c : JVal)
    (hc : jget data "code" .jnull = .ok c) (hne : keyEqStr c "00000" = false) :
    narkasa_load_markets st (.ok data) = .ok ⟨[], []⟩ := by
  simp [narkasa_load_markets, exbind_ok, expure, hc, hne]

/-- Claim C2, witness: the amended theorem applied to a concrete non-success
payload (numeric code `3`, which Python's `!=` distinguishes from the string
`"00000"`). -/
theorem C2_witness :
    narkasa_load_markets ⟨[("E/F", .jstr "EF")], [(.jstr "EF", "E/F")]⟩
      (.ok (.jobj [("code", .jnum 3)])) = .ok ⟨[], []⟩ :=
  C2_amended _ _ (.jnum 3) rfl rfl

/- ### Claim C3 -/

/-- Claim C3 is a code bug: the base-class docstring of
`_convert_symbol_to_ccxt` promises `separator "/" and all characters in
uppercase` on native inputs such as its own example `btc_usdt`, but
`biconomy._convert_symbol_to_ccxt` applies no case normalization: on
`"btc_usdt"` it returns `"btc/usdt"`, which violates the canonical pattern
`[A-Z0-9]+/[A-Z0-9]+`. `toobit._convert_symbol_to_ccxt` likewise returns
accepted strings not ending in `USDT` unchanged and slash-free, e.g.
`"BTCETH"`. -/
theorem C3_code_eval :
    biconomy_convert (.jstr "btc_usdt") = .ok "btc/usdt"
      ∧ isCanonicalSymbol "btc/usdt" = false
      ∧ toobit_convert (.jstr "BTCETH") = .ok "BTCETH"
      ∧ isCanonicalSymbol "BTCETH" = false :=
  ⟨rfl, by decide, rfl, by decide⟩

/- ### Claim C4 -/

/-- Claim C4 is a code bug: normalizing the bulk payload of the claim with
`biconomy.normalize_data` yields the mapping keyed by lowercase
`"eth/btc"`, not `"ETH/BTC"` as the claim (and the module's own header
example together with the base-class docstring's uppercase promise)
states, because `biconomy._convert_symbol_to_ccxt` never uppercases. The
numeric fields do come out as claimed (last 4026.0, baseVolume 4567.0,
quoteVolume 0.0). -/
theorem C4_code_eval :
    biconomy_normalize (.jobj [("ticker", .jarr [.jobj
        [("symbol", .jstr "eth_btc"), ("last", .jstr "4026"), ("vol", .jstr "4567")]])])
      = .ok [("eth/btc", ⟨4026, 4567, 0⟩)] := by decide

/- ### Claim C7 -/

/-- Claim C7, confirmed: for both per-symbol adapters, a normalize input
whose ticker object lacks the quote-volume field (narkasa `volume`, toobit
`qv`) and whose symbol converts successfully does not fail: it produces
exactly one entry whose `quoteVolume` is 0 and whose `baseVolume` is the
parsed value of the base-volume field (narkasa `volumeQty`, toobit `v`);
every missing numeric field is read with default `0`, so in particular a
missing `last` price also comes out as 0 (the hypotheses on the present
fields say only that they parse, and instantiate to `pyFloat (jnum 0) = ok 0`
when the field is absent). -/
theorem C7_default_volume :
    (∀ (st : NarkasaState) (data : JVal) (fs : List (String × JVal))
        (sym : String) (lv bv : ℚ),
      jget data "market" (.jobj []) = .ok (.jobj fs) →
      lookupField fs "volume" = none →
      narkasa_convert st ((lookupField fs "symbol").getD (.jstr "")) = .ok sym →
      pyFloat ((lookupField fs "last").getD (.jnum 0)) = .ok lv →
      pyFloat ((lookupField fs "volumeQty").getD (.jnum 0)) = .ok bv →
      narkasa_normalize st data = .ok [(sym, ⟨lv, bv, 0⟩)])
    ∧ (∀ (data : JVal) (gs : List (String × JVal)) (sym : String) (lv bv : ℚ),
      jindex0 data = .ok (.jobj gs) →
      lookupField gs "qv" = none →
      toobit_convert ((lookupField gs "s").getD .jnull) = .ok sym →
      pyFloat ((lookupField gs "c").getD (.jnum 0)) = .ok lv →
      pyFloat ((lookupField gs "v").getD (.jnum 0)) = .ok bv →
      toobit_normalize data = .ok [(sym, ⟨lv, bv, 0⟩)]) := by
  constructor
  · intro st data fs sym lv bv h1 h2 h3 h4 h5
    simp only [narkasa_normalize, h1, exbind_ok]
    simp only [jget, h2, h3, h4, h5, Option.getD_none, exbind_ok, exmap_ok, expure]
    rfl
  · intro data gs sym lv bv h1 h2 h3 h4 h5
    simp only [toobit_normalize, h1, exbind_ok]
    simp only [jget, h2, h3, h4, h5, Option.getD_none, exbind_ok, exmap_ok, expure]
    rfl

/-- Claim C7, witness: concrete inputs for both adapters, each missing the
quote-volume field and the `last` field, with base volume present; the
result has `quoteVolume = 0`, `baseVolume` equal to the parsed base volume
and `last = 0`. -/
theorem C7_witness :
    narkasa_normalize ⟨[("A/B", .jstr "AB")], [(.jstr "AB", "A/B")]⟩
        (.jobj [("market", .jobj [("symbol", .jstr "AB"), ("volumeQty", .jstr "7")])])
      = .ok [("A/B", ⟨0, 7, 0⟩)]
    ∧ toobit_normalize (.jarr [.jobj [("s", .jstr "EFUSDT"), ("v", .jstr "5")]])
      = .ok [("EF/USDT", ⟨0, 5, 0⟩)] :=
  ⟨C7_default_volume.1 _ _ _ _ 0 7 rfl rfl rfl rfl (by decide),
   C7_default_volume.2 _ _ _ 0 5 rfl rfl rfl rfl (by decide)⟩

/- ### Claim C9 -/

/-- Claim C9, counterexample: a non-empty payload whose first element's
symbol is the string `"X"` on which `toobit.normalize_data` nevertheless
does not return a one-entry mapping — the unparsable price string `"zz"`
makes `float()` raise `ValueError`. -/
theorem C9_counterexample :
    toobit_normalize (.jarr [.jobj [("s", .jstr "X"), ("c", .jstr "zz")]])
      = .error .valueError := by decide

/-- Claim C9, amended: `toobit.normalize_data` reads the first element of
its payload unguarded. For every non-empty list payload whose first element
is an object whose symbol field is a string and whose numeric fields
(`c`, `v`, `qv`), when present, parse as floats, it returns a mapping with
exactly one entry; on the empty list the element access `data[0]` fails
(IndexError) and there is no defined result. -/
theorem C9_amended :
    (∀ (gs : List (String × JVal)) (rest : List JVal) (s sym : String) (lv bv qv : ℚ),
      lookupField gs "s" = some (.jstr s) →
      toobit_convert (.jstr s) = .ok sym →
      pyFloat ((lookupField gs "c").getD (.jnum 0)) = .ok lv →
      pyFloat ((lookupField gs "v").getD (.jnum 0)) = .ok bv →
      pyFloat ((lookupField gs "qv").getD (.jnum 0)) = .ok qv →
      toobit_normalize (.jarr (.jobj gs :: rest)) = .ok [(sym, ⟨lv, bv, qv⟩)])
    ∧ toobit_normalize (.jarr []) = .error .indexError := by
  constructor
  · intro gs rest s sym lv bv qv hs hsym h4 h5 h6
    simp only [toobit_normalize, jindex0, exbind_ok]
    simp only [jget, hs, hsym, h4, h5, h6, Option.getD_some, exbind_ok, expure]
  · rfl

/-- Claim C9, witness: the amended theorem applied to a one-element payload
with string symbol `"ABUSDT"`, price `"3"` and both volume fields absent. -/
theorem C9_witness :
    toobit_normalize (.jarr [.jobj [("s", .jstr "ABUSDT"), ("c", .jstr "3")]])
      = .ok [("AB/USDT", ⟨3, 0, 0⟩)] :=
  C9_amended.1 [("s", .jstr "ABUSDT"), ("c", .jstr "3")] [] "ABUSDT" "AB/USDT" 3 0 0
    rfl (by decide) (by decide) rfl rfl

/- ### Claim C10 -/

/-- Claim C10, confirmed: whatever raw payload `biconomy.normalize_data`
accepts, every `TickerInfo` in the returned mapping has `quoteVolume = 0`;
the adapter writes the literal constant 0 and never derives the
quote-currency volume from exchange data. -/
theorem C10_quote_volume_always_zero (data : JVal)
    (r : List (String × TickerInfo)) (h : biconomy_normalize data = .ok r) :
    ∀ p ∈ r, p.2.quoteVolume = 0 := by
  simp only [biconomy_normalize, Bind.bind, Except.bind] at h
  repeat' split at h
  all_goals first
    | exact Except.noConfusion h
    | exact biconomyTickLoop_qv _ _ _ h (by intro p hp; cases hp)

/-- Claim C10, witness: the theorem applied to the concrete bulk payload of
the module's example, at its single resulting entry. -/
theorem C10_witness :
    (("eth/btc", (⟨4026, 4567, 0⟩ : TickerInfo)) : String × TickerInfo).2.quoteVolume
      = 0 :=
  C10_quote_volume_always_zero
    (.jobj [("ticker", .jarr [.jobj
      [("symbol", .jstr "eth_btc"), ("last", .jstr "4026"), ("vol", .jstr "4567")]])])
    [("eth/btc", ⟨4026, 4567, 0⟩)] (by decide) _ (by simp)

/- ### Claim C8 -/

theorem narkasaStep_skip {fs : List (String × JVal)}
    (h : lookupField fs "firstSymbol" = none ∨ lookupField fs "secondSymbol" = none) :
    narkasaStep (.jobj fs) = .ok none := by
  rcases h with h | h
  · simp [narkasaStep, jget, h, Option.getD_none, truthy, exbind_ok, expure]
  · simp [narkasaStep, jget, h, Option.getD_none, truthy, exbind_ok, expure]

theorem narkasaRegisterLoop_skip (st : NarkasaState) (es1 es2 : List JVal)
    (fs : List (String × JVal))
    (h : lookupField fs "firstSymbol" = none ∨ lookupField fs "secondSymbol" = none) :
    narkasaRegisterLoop (es1 ++ .jobj fs :: es2) st
      = narkasaRegisterLoop (es1 ++ es2) st := by
  induction es1 generalizing st with
  | nil =>
      simp only [List.nil_append, narkasaRegisterLoop, narkasaStep_skip h, exbind_ok]
  | cons e rest ih =>
      simp only [List.cons_append, narkasaRegisterLoop]
      cases hs : narkasaStep e with
      | error er => rw [exbind_err, exbind_err]
      | ok o =>
          rw [exbind_ok, exbind_ok]
          cases o with
          | some p => exact ih _
          | none => exact ih _

theorem toobitStep_missing {fs : List (String × JVal)}
    (h : lookupField fs "baseAsset" = none ∨ lookupField fs "quoteAsset" = none) :
    toobitStep (.jobj fs) = .error .keyError := by
  rcases h with h | h
  · simp [toobitStep, jindex, h, exbind_err]
  · cases hb : lookupField fs "baseAsset" with
    | none => simp [toobitStep, jindex, hb, exbind_err]
    | some b => simp [toobitStep, jindex, hb, h, exbind_ok, exbind_err]

/-- Claim C8, amended: the two adapters differ. In `narkasa.load_markets`
(which reads the asset fields with `.get`), a listing entry lacking the
base or the quote asset field is silently skipped: discovery of the rest of
the payload proceeds exactly as if the entry were absent, registering all
other entries. In `toobit.load_markets` (which subscripts
`symbol["baseAsset"]` / `symbol["quoteAsset"]`), an entry whose base or
quote asset field is missing makes discovery raise `KeyError` immediately,
aborting the whole call — such an entry is not skipped, contrary to the
claim; only entries whose fields are present but falsy are skipped. -/
theorem C8_amended :
    (∀ (st : NarkasaState) (es1 es2 : List JVal) (fs : List (String × JVal)),
      (lookupField fs "firstSymbol" = none ∨ lookupField fs "secondSymbol" = none) →
      narkasaRegisterLoop (es1 ++ .jobj fs :: es2) st
        = narkasaRegisterLoop (es1 ++ es2) st)
    ∧ (∀ (mkts : List (String × String)) (rest : List JVal) (fs : List (String × JVal)),
      (lookupField fs "baseAsset" = none ∨ lookupField fs "quoteAsset" = none) →
      toobitRegisterLoop (.jobj fs :: rest) mkts = .error .keyError) := by
  constructor
  · exact fun st es1 es2 fs h => narkasaRegisterLoop_skip st es1 es2 fs h
  · intro mkts rest fs h
    simp only [toobitRegisterLoop, toobitStep_missing h, exbind_err]

/-- Claim C8, counterexample: a `toobit` listing whose first entry lacks
the base-asset field makes `toobit.load_markets` raise `KeyError`; the
entry is not skipped and the following well-formed entry is not registered,
contrary to the claim. -/
theorem C8_counterexample :
    toobit_load_markets [] (.ok (.jobj [("symbols", .jarr
        [.jobj [("quoteAsset", .jstr "USDT")],
         .jobj [("baseAsset", .jstr "A"), ("quoteAsset", .jstr "B")]])]))
      = .error .keyError := by rfl

/-- Claim C8, witness: the amended theorem applied to a concrete narkasa
listing (the deficient entry between two good ones is dropped, everything
else registered) and to a concrete deficient toobit entry (KeyError). -/
theorem C8_witness :
    narkasaRegisterLoop
        [.jobj [("firstSymbol", .jstr "A"), ("secondSymbol", .jstr "B"), ("symbol", .jstr "AB")],
         .jobj [("secondSymbol", .jstr "Q")],
         .jobj [("firstSymbol", .jstr "C"), ("secondSymbol", .jstr "D"), ("symbol", .jstr "CD")]]
        ⟨[], []⟩
      = narkasaRegisterLoop
        [.jobj [("firstSymbol", .jstr "A"), ("secondSymbol", .jstr "B"), ("symbol", .jstr "AB")],
         .jobj [("firstSymbol", .jstr "C"), ("secondSymbol", .jstr "D"), ("symbol", .jstr "CD")]]
        ⟨[], []⟩
    ∧ toobitRegisterLoop [.jobj [("quoteAsset", .jstr "U")]] [] = .error .keyError :=
  ⟨C8_amended.1 ⟨[], []⟩
      [.jobj [("firstSymbol", .jstr "A"), ("secondSymbol", .jstr "B"), ("symbol", .jstr "AB")]]
      [.jobj [("firstSymbol", .jstr "C"), ("secondSymbol", .jstr "D"), ("symbol", .jstr "CD")]]
      [("secondSymbol", .jstr "Q")] (Or.inl rfl),
   C8_amended.2 [] [] [("quoteAsset", .jstr "U")] (Or.inl rfl)⟩

/- ### Claim C5 -/

theorem dictGetS_setS_self {α : Type} (d : List (String × α)) (k : String) (v : α) :
    dictGetS (dictSetS d k v) k = some v := by
  induction d with
  | nil => simp [dictSetS, dictGetS]
  | cons q rest ih =>
      rw [dictSetS]
      by_cases hq : q.1 == k
      · rw [if_pos hq, dictGetS, if_pos (by simp)]
      · rw [if_neg hq, dictGetS, if_neg hq]
        exact ih

theorem dictGetS_setS_ne {α : Type} (d : List (String × α)) {k j : String} (v : α)
    (h : j ≠ k) : dictGetS (dictSetS d k v) j = dictGetS d j := by
  have hkj : ¬((k == j) = true) := by
    simp only [beq_iff_eq]
    exact fun e => h e.symm
  induction d with
  | nil => simp [dictSetS, dictGetS, hkj]
  | cons q rest ih =>
      rw [dictSetS]
      by_cases hq : q.1 == k
      · have hqk : q.1 = k := eq_of_beq hq
        rw [if_pos hq, dictGetS, dictGetS, if_neg hkj, if_neg (by rw [hqk]; exact hkj)]
      · rw [if_neg hq, dictGetS, dictGetS]
        by_cases hqj : q.1 == j
        · rw [if_pos hqj, if_pos hqj]
        · rw [if_neg hqj, if_neg hqj]
          exact ih

theorem dictSetS_absorb {α : Type} {d : List (String × α)} {k : String} {v : α}
    (h : dictGetS d k = some v) : dictSetS d k v = d := by
  induction d with
  | nil => simp [dictGetS] at h
  | cons q rest ih =>
      obtain ⟨a, b⟩ := q
      rw [dictGetS] at h
      rw [dictSetS]
      by_cases hq : a = k
      · simp only [hq, if_pos (by simp : (((k : String), b).1 == k) = true)] at h ⊢
        cases h
        rfl
      · rw [if_neg (by simpa using hq)] at h
        rw [if_neg (by simpa using hq), ih h]

theorem applyPairs_cons {α : Type} (p : String × α) (ps : List (String × α))
    (d : List (String × α)) :
    applyPairs (p :: ps) d = applyPairs ps (dictSetS d p.1 p.2) := rfl

theorem dictGetS_applyPairs_notin {α : Type} (ps : List (String × α))
    (d : List (String × α)) (k : String) (h : ∀ p ∈ ps, p.1 ≠ k) :
    dictGetS (applyPairs ps d) k = dictGetS d k := by
  induction ps generalizing d with
  | nil => rfl
  | cons p ps ih =>
      rw [applyPairs_cons, ih _ (fun q hq => h q (List.mem_cons_of_mem _ hq))]
      exact dictGetS_setS_ne d _ (Ne.symm (h p (List.mem_cons_self _ _)))

theorem dictGetS_applyPairs_mem {α : Type} (ps : List (String × α))
    (d : List (String × α)) {k : String} {v : α}
    (hnd : (ps.map Prod.fst).Nodup) (hm : (k, v) ∈ ps) :
    dictGetS (applyPairs ps d) k = some v := by
  induction ps generalizing d with
  | nil => cases hm
  | cons p ps ih =>
      rw [List.map_cons, List.nodup_cons] at hnd
      rcases List.mem_cons.mp hm with h1 | h2
      · subst h1
        rw [applyPairs_cons, dictGetS_applyPairs_notin]
        · exact dictGetS_setS_self _ _ _
        · intro q hq he
          have hx : q.1 ∈ List.map Prod.fst ps := List.mem_map_of_mem Prod.fst hq
          rw [he] at hx
          exact hnd.1 hx
      · rw [applyPairs_cons]
        exact ih _ hnd.2 h2

theorem applyPairs_absorb {α : Type} (ps : List (String × α))
    (d : List (String × α)) (h : ∀ p ∈ ps, dictGetS d p.1 = some p.2) :
    applyPairs ps d = d := by
  induction ps with
  | nil => rfl
  | cons p ps ih =>
      rw [applyPairs_cons, dictSetS_absorb (h p (List.mem_cons_self _ _))]
      exact ih (fun q hq => h q (List.mem_cons_of_mem _ hq))

theorem toobitRegisterLoop_eq (xs : List JVal) :
    ∀ (mkts ps : List (String × String)),
      toobitMarketPairs xs = .ok ps →
      toobitRegisterLoop xs mkts = .ok (applyPairs ps mkts) := by
  induction xs with
  | nil =>
      intro mkts ps h
      simp only [toobitMarketPairs] at h
      cases h
      rfl
  | cons e rest ih =>
      intro mkts ps h
      simp only [toobitMarketPairs] at h
      simp only [toobitRegisterLoop]
      cases hs : toobitStep e with
      | error er =>
          rw [hs, exbind_err] at h
          exact Except.noConfusion h
      | ok o =>
          rw [hs, exbind_ok] at h
          rw [exbind_ok]
          split at h
          · next p =>
              cases hr : toobitMarketPairs rest with
              | error er =>
                  rw [hr, exbind_err] at h
                  exact Except.noConfusion h
              | ok ps2 =>
                  rw [hr, exbind_ok, expure] at h
                  cases h
                  rw [applyPairs_cons]
                  exact ih _ ps2 hr
          · exact ih mkts ps h

theorem toobit_load_markets_eq (mkts ps : List (String × String))
    (resp : Except PyErr JVal) (h : toobitPairsOf resp = .ok ps) :
    toobit_load_markets mkts resp = .ok (applyPairs ps mkts) := by
  cases resp with
  | error e =>
      rw [toobitPairsOf, exbind_err] at h
      exact Except.noConfusion h
  | ok data =>
      rw [toobitPairsOf, exbind_ok] at h
      rw [toobit_load_markets, exbind_ok]
      cases hg : jget data "symbols" (.jarr []) with
      | error e =>
          rw [hg, exbind_err] at h
          exact Except.noConfusion h
      | ok symbols =>
          rw [hg, exbind_ok] at h
          rw [exbind_ok]
          cases hi : jiter symbols with
          | error e =>
              rw [hi, exbind_err] at h
              exact Except.noConfusion h
          | ok xs =>
              rw [hi, exbind_ok] at h
              rw [exbind_ok]
              exact toobitRegisterLoop_eq xs mkts ps h

theorem dictSetS_set_same {α : Type} (d : List (String × α)) (k : String) (v w : α) :
    dictSetS (dictSetS d k v) k w = dictSetS d k w := by
  induction d with
  | nil => simp [dictSetS]
  | cons q rest ih =>
      rw [dictSetS]
      by_cases hq : q.1 == k
      · rw [if_pos hq, dictSetS, if_pos (by simp), dictSetS, if_pos hq]
      · rw [if_neg hq, dictSetS, if_neg hq, dictSetS, if_neg hq, ih]

theorem dictSetS_comm_of_present {α : Type} {d : List (String × α)} {k k1 : String}
    (v v1 : α) (hne : k1 ≠ k) (hp : (dictGetS d k).isSome) :
    dictSetS (dictSetS d k v) k1 v1 = dictSetS (dictSetS d k1 v1) k v := by
  have hkk1 : ¬((k == k1) = true) := by
    simp only [beq_iff_eq]
    exact fun h => hne h.symm
  have hk1k : ¬((k1 == k) = true) := by simpa using hne
  induction d with
  | nil => simp [dictGetS] at hp
  | cons q rest ih =>
      obtain ⟨a, b⟩ := q
      rw [dictGetS] at hp
      by_cases hak : a = k
      · subst hak
        rw [dictSetS, if_pos (by simp), dictSetS, if_neg (by simpa using hkk1),
          dictSetS, if_neg (by simpa using hkk1), dictSetS, if_pos (by simp)]
      · rw [if_neg (by simpa using hak)] at hp
        by_cases hak1 : a = k1
        · subst hak1
          rw [dictSetS, if_neg (by simpa using hak), dictSetS, if_pos (by simp),
            dictSetS, if_pos (by simp), dictSetS, if_neg (by simpa using hak)]
        · rw [dictSetS, if_neg (by simpa using hak), dictSetS,
            if_neg (by simpa using hak1), dictSetS, if_neg (by simpa using hak1),
            dictSetS, if_neg (by simpa using hak), ih hp]

theorem applyPairs_set_absorb_of_mem {α : Type} (ps : List (String × α)) :
    ∀ (d : List (String × α)) (k : String) (v : α),
      (dictGetS d k).isSome → (∃ w, (k, w) ∈ ps) →
      applyPairs ps (dictSetS d k v) = applyPairs ps d := by
  induction ps with
  | nil =>
      intro d k v hp hex
      rcases hex with ⟨w, hw⟩
      cases hw
  | cons p ps ih =>
      intro d k v hp hex
      obtain ⟨k1, v1⟩ := p
      by_cases hk : k1 = k
      · subst hk
        rw [applyPairs_cons, applyPairs_cons, dictSetS_set_same]
      · rw [applyPairs_cons, applyPairs_cons,
          dictSetS_comm_of_present v v1 hk hp]
        refine ih (dictSetS d k1 v1) k v ?_ ?_
        · rw [dictGetS_setS_ne d v1 (fun he => hk he.symm)]
          exact hp
        · rcases hex with ⟨w, hw⟩
          rcases List.mem_cons.mp hw with heq | hmem
          · injection heq with h1 h2
            exact absurd h1.symm hk
          · exact ⟨w, hmem⟩

theorem dictGetS_applyPairs_isSome {α : Type} (ps : List (String × α)) :
    ∀ (d : List (String × α)) (k : String),
      (dictGetS d k).isSome → (dictGetS (applyPairs ps d) k).isSome := by
  induction ps with
  | nil => exact fun d k h => h
  | cons p ps ih =>
      intro d k h
      rw [applyPairs_cons]
      refine ih _ k ?_
      by_cases hk : p.1 = k
      · rw [← hk, dictGetS_setS_self]
        rfl
      · rw [dictGetS_setS_ne d _ (fun he => hk he.symm)]
        exact h

theorem applyPairs_idem {α : Type} (ps : List (String × α)) :
    ∀ d, applyPairs ps (applyPairs ps d) = applyPairs ps d := by
  induction ps with
  | nil => exact fun d => rfl
  | cons p ps ih =>
      intro d
      obtain ⟨k, v⟩ := p
      rw [applyPairs_cons, applyPairs_cons]
      by_cases hex : ∃ w, ((k, w) : String × α) ∈ ps
      · rw [applyPairs_set_absorb_of_mem ps (applyPairs ps (dictSetS d k v)) k v
          (dictGetS_applyPairs_isSome ps _ k (by rw [dictGetS_setS_self]; rfl)) hex]
        exact ih _
      · have hnone : ∀ p2 ∈ ps, p2.1 ≠ k := by
          intro p2 hp2 he
          refine hex ⟨p2.2, ?_⟩
          rw [← he]
          exact hp2
        have hget : dictGetS (applyPairs ps (dictSetS d k v)) k = some v := by
          rw [dictGetS_applyPairs_notin ps _ k hnone, dictGetS_setS_self]
        rw [dictSetS_absorb hget]
        exact ih _

/-- Claim C5, amended: `narkasa.load_markets` does replace the registry
wholesale — its result is independent of the prior registry state (it clears
both dicts at entry), so re-running discovery against the same market list
yields an identical registry and a market present only in the old registry
is absent afterwards. `toobit.load_markets`, however, merges: the pairs
derived from the listing are folded into the existing dict, so every prior
entry whose market key is not re-listed survives with its old value
(old-only markets are NOT discarded, contrary to the claim); re-running it
against the same listing is still idempotent, unconditionally: replaying the
listing overwrites each key slot in place with its same final value. -/
theorem C5_amended :
    (∀ (st1 st2 : NarkasaState) (resp : Except PyErr JVal),
        narkasa_load_markets st1 resp = narkasa_load_markets st2 resp)
    ∧ (∀ (st st2 : NarkasaState) (resp : Except PyErr JVal),
        narkasa_load_markets st resp = .ok st2 →
        narkasa_load_markets st2 resp = .ok st2)
    ∧ (∀ (mkts : List (String × String)) (resp : Except PyErr JVal)
          (ps : List (String × String)),
        toobitPairsOf resp = .ok ps →
        toobit_load_markets mkts resp = .ok (applyPairs ps mkts)
          ∧ ∀ (k v : String), dictGetS mkts k = some v → (∀ p ∈ ps, p.1 ≠ k) →
              dictGetS (applyPairs ps mkts) k = some v)
    ∧ (∀ (mkts st2 : List (String × String)) (resp : Except PyErr JVal)
          (ps : List (String × String)),
        toobitPairsOf resp = .ok ps →
        toobit_load_markets mkts resp = .ok st2 →
        toobit_load_markets st2 resp = .ok st2) := by
  refine ⟨fun st1 st2 resp => rfl, fun st st2 resp h => h, ?_, ?_⟩
  · intro mkts resp ps h1
    refine ⟨toobit_load_markets_eq mkts ps resp h1, ?_⟩
    intro k v hv hfresh
    rw [dictGetS_applyPairs_notin ps mkts k hfresh]
    exact hv
  · intro mkts st2 resp ps h1 h2
    have he := toobit_load_markets_eq mkts ps resp h1
    rw [h2] at he
    cases he
    rw [toobit_load_markets_eq (applyPairs ps mkts) ps resp h1, applyPairs_idem]

/-- Claim C5, counterexample: a `toobit` registry holding only `A/B ↦ AB`
re-discovered against a listing containing only market `C/D` ends up
holding BOTH entries — the old-only market `A/B` is still present, so the
old contents are merged, not discarded. -/
theorem C5_counterexample :
    toobit_load_markets [("A/B", "AB")]
        (.ok (.jobj [("symbols", .jarr
          [.jobj [("baseAsset", .jstr "C"), ("quoteAsset", .jstr "D")]])]))
      = .ok [("A/B", "AB"), ("C/D", "CD")]
    ∧ dictGetS [("A/B", "AB"), ("C/D", "CD")] "A/B" = some "AB" := ⟨rfl, rfl⟩

/-- Claim C5, witness: every conjunct of the amended theorem applied to
concrete registries and listings. -/
theorem C5_witness :
    narkasa_load_markets ⟨[("X/Y", .jstr "XY")], []⟩
        (.ok (.jobj [("code", .jstr "00000"), ("markets", .jarr
          [.jobj [("firstSymbol", .jstr "A"), ("secondSymbol", .jstr "B"),
                  ("symbol", .jstr "AB")]])]))
      = narkasa_load_markets ⟨[], []⟩
        (.ok (.jobj [("code", .jstr "00000"), ("markets", .jarr
          [.jobj [("firstSymbol", .jstr "A"), ("secondSymbol", .jstr "B"),
                  ("symbol", .jstr "AB")]])]))
    ∧ narkasa_load_markets ⟨[("A/B", .jstr "AB")], [(.jstr "AB", "A/B")]⟩
        (.ok (.jobj [("code", .jstr "00000"), ("markets", .jarr
          [.jobj [("firstSymbol", .jstr "A"), ("secondSymbol", .jstr "B"),
                  ("symbol", .jstr "AB")]])]))
      = .ok ⟨[("A/B", .jstr "AB")], [(.jstr "AB", "A/B")]⟩
    ∧ toobit_load_markets [("A/B", "AB")]
        (.ok (.jobj [("symbols", .jarr
          [.jobj [("baseAsset", .jstr "C"), ("quoteAsset", .jstr "D")]])]))
      = .ok (applyPairs [("C/D", "CD")] [("A/B", "AB")])
    ∧ dictGetS (applyPairs [("C/D", "CD")] [("A/B", "AB")]) "A/B" = some "AB"
    ∧ toobit_load_markets [("A/B", "AB"), ("C/D", "CD")]
        (.ok (.jobj [("symbols", .jarr
          [.jobj [("baseAsset", .jstr "C"), ("quoteAsset", .jstr "D")]])]))
      = .ok [("A/B", "AB"), ("C/D", "CD")] :=
  ⟨C5_amended.1 _ _ _,
   C5_amended.2.1 ⟨[], []⟩ _ _ rfl,
   (C5_amended.2.2.1 [("A/B", "AB")] (.ok (.jobj [("symbols", .jarr
          [.jobj [("baseAsset", .jstr "C"), ("quoteAsset", .jstr "D")]])]))
      [("C/D", "CD")] rfl).1,
   (C5_amended.2.2.1 [("A/B", "AB")] (.ok (.jobj [("symbols", .jarr
          [.jobj [("baseAsset", .jstr "C"), ("quoteAsset", .jstr "D")]])]))
      [("C/D", "CD")] rfl).2 "A/B" "AB" rfl (by decide),
   C5_amended.2.2.2 [("A/B", "AB")] _ _ [("C/D", "CD")] rfl rfl⟩

/- ### Claim C6 -/

theorem scalarEq_symm (a b : JVal) : scalarEq a b = scalarEq b a := by
  cases a <;> cases b <;> simp [scalarEq, eq_comm]

theorem scalarEq_right_cancel {a b c : JVal} (h1 : scalarEq a b = true)
    (h2 : scalarEq c b = true) : scalarEq a c = true := by
  cases a <;> cases b <;> cases c <;> simp_all [scalarEq]

theorem scalarEq_jstr_inv {x : JVal} {a : String} (h : scalarEq x (.jstr a) = true) :
    x = .jstr a := by
  cases x <;> simp_all [scalarEq]

theorem dictLookupJ_setJ_self {d : List (JVal × String)} {k k2 : JVal} (v : String)
    (h : scalarEq k k2 = true) : dictLookupJ (dictSetJ d k v) k2 = some v := by
  induction d with
  | nil => simp [dictSetJ, dictLookupJ, h]
  | cons q rest ih =>
      rw [dictSetJ]
      by_cases hq : scalarEq q.1 k
      · rw [if_pos hq, dictLookupJ, if_pos h]
      · rw [if_neg hq, dictLookupJ, if_neg]
        · exact ih
        · intro hq2
          exact hq (scalarEq_right_cancel hq2 h)

theorem dictLookupJ_setJ_ne {d : List (JVal × String)} {k k2 : JVal} (v : String)
    (h : scalarEq k k2 = false) : dictLookupJ (dictSetJ d k v) k2 = dictLookupJ d k2 := by
  induction d with
  | nil => simp [dictSetJ, dictLookupJ, h]
  | cons q rest ih =>
      rw [dictSetJ]
      by_cases hq : scalarEq q.1 k
      · rw [if_pos hq, dictLookupJ, dictLookupJ, if_neg (by simp [h]), if_neg]
        intro hq2
        have h1 : scalarEq k q.1 = true := by rw [scalarEq_symm]; exact hq
        have h2 : scalarEq k2 q.1 = true := by rw [scalarEq_symm]; exact hq2
        simp [scalarEq_right_cancel h1 h2] at h
      · rw [if_neg hq, dictLookupJ, dictLookupJ]
        by_cases hq2 : scalarEq q.1 k2
        · rw [if_pos hq2, if_pos hq2]
        · rw [if_neg hq2, if_neg hq2]
          exact ih

theorem applyPairsJ_cons (p : String × JVal) (ps : List (String × JVal))
    (S : List (JVal × String)) :
    applyPairsJ (p :: ps) S = applyPairsJ ps (dictSetJ S p.2 p.1) := rfl

theorem narkasaRegisterLoop_eq (xs : List JVal) :
    ∀ (M : List (String × JVal)) (S : List (JVal × String))
      (kept : List (String × JVal)),
      narkasaKeptEntries xs = .ok kept →
      narkasaRegisterLoop xs ⟨M, S⟩ = .ok ⟨applyPairs kept M, applyPairsJ kept S⟩ := by
  induction xs with
  | nil =>
      intro M S kept h
      simp only [narkasaKeptEntries] at h
      cases h
      rfl
  | cons e rest ih =>
      intro M S kept h
      simp only [narkasaKeptEntries] at h
      simp only [narkasaRegisterLoop]
      cases hs : narkasaStep e with
      | error er =>
          rw [hs, exbind_err] at h
          exact Except.noConfusion h
      | ok o =>
          rw [hs, exbind_ok] at h
          rw [exbind_ok]
          split at h
          · next p =>
              cases hr : narkasaKeptEntries rest with
              | error er =>
                  rw [hr, exbind_err] at h
                  exact Except.noConfusion h
              | ok kept2 =>
                  rw [hr, exbind_ok, expure] at h
                  cases h
                  rw [applyPairs_cons, applyPairsJ_cons]
                  exact ih _ _ kept2 hr
          · exact ih M S kept h

theorem narkasa_roundtrip_aux (kept : List (String × JVal)) :
    ∀ (M : List (String × JVal)) (S : List (JVal × String)),
      (kept.map Prod.fst).Nodup →
      (∀ mk ∈ kept.map Prod.fst, dictGetS M mk = none) →
      (∀ (n mk : String), dictLookupJ S (.jstr n) = some mk →
        dictGetS M mk = some (.jstr n)) →
      (∀ (n mk : String), dictLookupJ (applyPairsJ kept S) (.jstr n) = some mk →
        dictGetS (applyPairs kept M) mk = some (.jstr n)) := by
  induction kept with
  | nil => exact fun M S hnd hfresh hinv => hinv
  | cons p kept ih =>
      intro M S hnd hfresh hinv
      obtain ⟨mk0, sy⟩ := p
      rw [List.map_cons, List.nodup_cons] at hnd
      rw [applyPairs_cons, applyPairsJ_cons]
      refine ih (dictSetS M mk0 sy) (dictSetJ S sy mk0) hnd.2 ?_ ?_
      · intro mk hmk
        have hne : mk ≠ mk0 := fun he => hnd.1 (he ▸ hmk)
        rw [dictGetS_setS_ne M _ hne]
        exact hfresh mk (List.mem_cons_of_mem _ hmk)
      · intro n mk hlook
        by_cases hsy : scalarEq sy (.jstr n)
        · rw [dictLookupJ_setJ_self mk0 hsy] at hlook
          cases hlook
          rw [scalarEq_jstr_inv hsy, dictGetS_setS_self]
        · rw [dictLookupJ_setJ_ne mk0 (by simpa using hsy)] at hlook
          have hold := hinv n mk hlook
          have hne : mk ≠ mk0 := by
            intro he
            rw [he, hfresh mk0 (List.mem_cons_self _ _)] at hold
            exact Option.noConfusion hold
          rw [dictGetS_setS_ne M _ hne]
          exact hold

/-- Claim C6, amended: the round-trip holds under the additional hypothesis
that the kept listing entries carry pairwise-distinct market keys
(`base + "/" + quote`). Then for every native identifier `n` accepted by
the lookup codec after a successful discovery (i.e. `_convert_symbol_to_ccxt`
returns a market `m` for it), the markets dict maps `m` back to exactly
`n`. Without that hypothesis the claim is false (see the counterexample):
a listing may register two native symbols onto the same market key,
overwriting the back-pointer. -/
theorem C6_amended (st : NarkasaState) (resp : Except PyErr JVal)
    (kept : List (String × JVal)) (st2 : NarkasaState) (n m : String)
    (hk : narkasaKeptOf resp = .ok kept)
    (hnd : (kept.map Prod.fst).Nodup)
    (hl : narkasa_load_markets st resp = .ok st2)
    (hc : narkasa_convert st2 (.jstr n) = .ok m) :
    dictGetS st2.markets m = some (.jstr n) := by
  have hlook : dictLookupJ st2.symbols (.jstr n) = some m := by
    rw [narkasa_convert] at hc
    cases hx : dictLookupJ st2.symbols (.jstr n) with
    | none => rw [hx] at hc; exact Except.noConfusion hc
    | some m2 => rw [hx] at hc; cases hc; rfl
  cases resp with
  | error e =>
      rw [narkasaKeptOf, exbind_err] at hk
      exact Except.noConfusion hk
  | ok data =>
      rw [narkasaKeptOf, exbind_ok] at hk
      rw [narkasa_load_markets, exbind_ok] at hl
      cases hcode : jget data "code" .jnull with
      | error e =>
          rw [hcode, exbind_err] at hk
          exact Except.noConfusion hk
      | ok code =>
          rw [hcode, exbind_ok] at hk
          rw [hcode, exbind_ok] at hl
          by_cases hok : keyEqStr code "00000"
          · rw [if_pos hok] at hk hl
            cases hms : jget data "markets" (.jarr []) with
            | error e =>
                rw [hms, exbind_err] at hk
                exact Except.noConfusion hk
            | ok ms =>
                rw [hms, exbind_ok] at hk hl
                cases hxs : jiter ms with
                | error e =>
                    rw [hxs, exbind_err] at hk
                    exact Except.noConfusion hk
                | ok xs =>
                    rw [hxs, exbind_ok] at hk hl
                    rw [narkasaRegisterLoop_eq xs [] [] kept hk] at hl
                    cases hl
                    refine narkasa_roundtrip_aux kept [] [] hnd ?_ ?_ n m hlook
                    · intro mk hmk
                      rfl
                    · intro n2 mk h2
                      exact Option.noConfusion h2
          · rw [if_neg hok, expure] at hl
            cases hl
            rw [dictLookupJ] at hlook
            exact Option.noConfusion hlook

/-- Claim C6, counterexample: the listing
`[{A,B,sym X}, {C,D,sym X}, {C,D,sym Y}]` discovers successfully and leaves
`X` present in the registry (the codec maps it to `C/D`), yet
`markets["C/D"]` holds `"Y"`, not `"X"` — the round-trip
`nativeOf(toCanonical(n)) = n` fails for `n = "X"`. -/
theorem C6_counterexample :
    narkasa_load_markets ⟨[], []⟩ (.ok (.jobj [("code", .jstr "00000"), ("markets", .jarr
        [.jobj [("firstSymbol", .jstr "A"), ("secondSymbol", .jstr "B"), ("symbol", .jstr "X")],
         .jobj [("firstSymbol", .jstr "C"), ("secondSymbol", .jstr "D"), ("symbol", .jstr "X")],
         .jobj [("firstSymbol", .jstr "C"), ("secondSymbol", .jstr "D"), ("symbol", .jstr "Y")]])]))
      = .ok ⟨[("A/B", .jstr "X"), ("C/D", .jstr "Y")], [(.jstr "X", "C/D"), (.jstr "Y", "C/D")]⟩
    ∧ narkasa_convert
        ⟨[("A/B", .jstr "X"), ("C/D", .jstr "Y")], [(.jstr "X", "C/D"), (.jstr "Y", "C/D")]⟩
        (.jstr "X") = .ok "C/D"
    ∧ dictGetS [("A/B", JVal.jstr "X"), ("C/D", JVal.jstr "Y")] "C/D" = some (.jstr "Y")
    ∧ JVal.jstr "Y" ≠ JVal.jstr "X" := by
  refine ⟨rfl, rfl, rfl, ?_⟩
  intro h
  injection h with h2
  exact absurd h2 (by decide)

/-- Claim C6, witness: the amended theorem applied to a concrete
single-market discovery. -/
theorem C6_witness :
    dictGetS
      (NarkasaState.mk [("A/B", .jstr "AB")] [(.jstr "AB", "A/B")]).markets
      "A/B" = some (.jstr "AB") :=
  C6_amended ⟨[], []⟩
    (.ok (.jobj [("code", .jstr "00000"), ("markets", .jarr
      [.jobj [("firstSymbol", .jstr "A"), ("secondSymbol", .jstr "B"),
              ("symbol", .jstr "AB")]])]))
    [("A/B", .jstr "AB")] ⟨[("A/B", .jstr "AB")], [(.jstr "AB", "A/B")]⟩ "AB" "A/B"
    rfl (by simp) rfl rfl

/- ### Claim C1 -/

theorem dictSetS_fresh {α : Type} {d : List (String × α)} {k : String} (v : α)
    (h : ∀ p ∈ d, p.1 ≠ k) : dictSetS d k v = d ++ [(k, v)] := by
  induction d with
  | nil => rfl
  | cons q rest ih =>
      rw [dictSetS, if_neg (by simpa using h q (List.mem_cons_self _ _)),
        List.cons_append, ih (fun p hp => h p (List.mem_cons_of_mem _ hp))]

theorem filter_ne_length {L : List String} {s0 : String} (hnd : L.Nodup)
    (hm : s0 ∈ L) : (L.filter (fun s => s != s0)).length = L.length - 1 := by
  induction L with
  | nil => cases hm
  | cons a rest ih =>
      rw [List.nodup_cons] at hnd
      by_cases ha : a = s0
      · subst ha
        rw [List.filter_cons_of_neg (by simp)]
        rw [List.filter_eq_self.mpr ?_]
        · simp
        · intro x hx
          simp only [bne_iff_ne, ne_eq]
          exact fun he => hnd.1 (he ▸ hx)
      · rcases List.mem_cons.mp hm with h1 | h2
        · exact absurd h1.symm ha
        · rw [List.filter_cons_of_pos (by simpa using ha)]
          rw [List.length_cons, ih hnd.2 h2, List.length_cons]
          have hpos : 0 < rest.length := List.length_pos.mpr (List.ne_nil_of_mem h2)
          omega

theorem narkasaFetchLoop_single_failure
    (st : NarkasaState) (t : String → Except PyErr JVal) (s0 : String)
    (d0 c0 : JVal) (ds : String → JVal) (k : String → String)
    (info : String → TickerInfo)
    (ht0 : t s0 = .ok d0) (hc0 : jindex d0 "code" = .ok c0)
    (hbad : keyEqStr c0 "00000" = false) :
    ∀ (L : List String) (acc : List (String × TickerInfo)),
      L.Nodup →
      (∀ s ∈ L, s ≠ s0 → t s = .ok (ds s)
        ∧ jindex (ds s) "code" = .ok (.jstr "00000")
        ∧ narkasa_normalize st (ds s) = .ok [(k s, info s)]) →
      (∀ s1 ∈ L, ∀ s2 ∈ L, k s1 = k s2 → s1 = s2) →
      (∀ s ∈ L, s ≠ s0 → ∀ p ∈ acc, p.1 ≠ k s) →
      narkasaFetchLoop st t (L.map JVal.jstr) acc
        = .ok (acc ++ (L.filter (fun s => s != s0)).map (fun s => (k s, info s))) := by
  intro L
  induction L with
  | nil =>
      intro acc h1 h2 h3 h4
      simp [narkasaFetchLoop]
  | cons s rest ih =>
      intro acc hnd hgood hinj hfresh
      rw [List.nodup_cons] at hnd
      rw [List.map_cons]
      simp only [narkasaFetchLoop, asStr, exbind_ok]
      by_cases hs : s = s0
      · subst hs
        rw [ht0, exbind_ok, hc0, exbind_ok, if_neg (by simp [hbad])]
        rw [List.filter_cons_of_neg (by simp)]
        exact ih acc hnd.2
          (fun s2 hs2 hne => hgood s2 (List.mem_cons_of_mem _ hs2) hne)
          (fun s1 hs1 s2 hs2 he =>
            hinj s1 (List.mem_cons_of_mem _ hs1) s2 (List.mem_cons_of_mem _ hs2) he)
          (fun s2 hs2 hne p hp => hfresh s2 (List.mem_cons_of_mem _ hs2) hne p hp)
      · obtain ⟨ht, hcode, hnorm⟩ := hgood s (List.mem_cons_self _ _) hs
        rw [ht, exbind_ok, hcode, exbind_ok,
          if_pos (show keyEqStr (JVal.jstr "00000") "00000" = true by decide),
          hnorm, exbind_ok]
        have hupd : dictUpdate acc [(k s, info s)] = acc ++ [(k s, info s)] :=
          dictSetS_fresh (info s) (hfresh s (List.mem_cons_self _ _) hs)
        rw [hupd]
        rw [List.filter_cons_of_pos (by simpa using hs), List.map_cons]
        rw [ih (acc ++ [(k s, info s)]) hnd.2
          (fun s2 hs2 hne => hgood s2 (List.mem_cons_of_mem _ hs2) hne)
          (fun s1 hs1 s2 hs2 he =>
            hinj s1 (List.mem_cons_of_mem _ hs1) s2 (List.mem_cons_of_mem _ hs2) he)
          ?fresh2]
        · rw [List.append_assoc, List.singleton_append]
        case fresh2 =>
          intro s2 hs2 hne p hp
          rcases List.mem_append.mp hp with h | h
          · exact hfresh s2 (List.mem_cons_of_mem _ hs2) hne p h
          · rw [List.mem_singleton.mp h]
            intro he
            have := hinj s (List.mem_cons_self _ _) s2 (List.mem_cons_of_mem _ hs2) he
            exact hnd.1 (this ▸ hs2)

/-- Claim C1, amended: only `narkasa` has any per-symbol failure tolerance,
and only for one failure kind: a per-symbol request that succeeds at the
transport level but whose payload carries a non-success exchange code is
skipped. Precisely: for a registry of N distinct native identifiers where
every per-symbol transport call returns a payload, exactly one of those
payloads carries a code different from `"00000"`, and every other payload
has code `"00000"` and normalizes to a single entry with pairwise-distinct
keys, `narkasa.fetch_tickers` returns a mapping of size N−1, skipping only
the failed symbol, and does not raise. Transport-level failures (non-2xx
status, parse failure) raise out of `fetch_data` and abort the whole batch
(see the counterexample), and `toobit.fetch_tickers` has no skipping at
all. -/
theorem C1_amended (st : NarkasaState) (t : String → Except PyErr JVal)
    (mkResp : Except PyErr JVal) (L : List String) (s0 : String)
    (d0 c0 : JVal) (ds : String → JVal) (k : String → String)
    (info : String → TickerInfo)
    (hne : st.markets.isEmpty = false)
    (hvals : st.markets.map Prod.snd = L.map JVal.jstr)
    (hnd : L.Nodup) (hs0 : s0 ∈ L)
    (ht0 : t s0 = .ok d0) (hc0 : jindex d0 "code" = .ok c0)
    (hbad : keyEqStr c0 "00000" = false)
    (hgood : ∀ s ∈ L, s ≠ s0 → t s = .ok (ds s)
        ∧ jindex (ds s) "code" = .ok (.jstr "00000")
        ∧ narkasa_normalize st (ds s) = .ok [(k s, info s)])
    (hinj : ∀ s1 ∈ L, ∀ s2 ∈ L, k s1 = k s2 → s1 = s2) :
    narkasa_fetch_tickers t mkResp st
        = .ok ((L.filter (fun s => s != s0)).map (fun s => (k s, info s)))
      ∧ ((L.filter (fun s => s != s0)).map (fun s => (k s, info s))).length
          = L.length - 1 := by
  constructor
  · rw [narkasa_fetch_tickers, hne]
    rw [if_neg (by simp), expure, exbind_ok]
    beta_reduce
    rw [hvals]
    rw [narkasaFetchLoop_single_failure st t s0 d0 c0 ds k info ht0 hc0 hbad
      L [] hnd hgood hinj (fun s hs hne2 p hp => absurd hp (List.not_mem_nil p))]
    rw [List.nil_append]
  · rw [List.length_map]
    exact filter_ne_length hnd hs0

/-- Claim C1, counterexample: a narkasa registry of N = 2 identifiers where
exactly one per-symbol request fails with a non-success status code (the
transport raises, as `fetch_data` does on non-2xx). The claim demands a
mapping of size 1 and no raise; the code propagates the error and the batch
aborts with no mapping at all. -/
theorem C1_counterexample :
    narkasa_fetch_tickers
      (fun s => if s == "AB" then .error .transportError else .ok (.jobj
        [("code", .jstr "00000"), ("market", .jobj
          [("symbol", .jstr "CD"), ("last", .jstr "1"),
           ("volumeQty", .jstr "2"), ("volume", .jstr "3")])]))
      (.ok .jnull)
      ⟨[("A/B", .jstr "AB"), ("C/D", .jstr "CD")],
       [(.jstr "AB", "A/B"), (.jstr "CD", "C/D")]⟩
      = .error .transportError := by rfl

/-- Claim C1, witness: the amended theorem applied to a registry of two
identifiers where the request for `AB` carries exchange code `"E"` and the
request for `CD` succeeds: the result is the one-entry mapping for `C/D`. -/
theorem C1_witness :
    narkasa_fetch_tickers
      (fun s => if s == "AB" then .ok (.jobj [("code", .jstr "E")]) else .ok (.jobj
        [("code", .jstr "00000"), ("market", .jobj
          [("symbol", .jstr "CD"), ("last", .jstr "1"),
           ("volumeQty", .jstr "2"), ("volume", .jstr "3")])]))
      (.ok .jnull)
      ⟨[("A/B", .jstr "AB"), ("C/D", .jstr "CD")],
       [(.jstr "AB", "A/B"), (.jstr "CD", "C/D")]⟩
      = .ok [("C/D", ⟨1, 2, 3⟩)] :=
  (C1_amended
    ⟨[("A/B", .jstr "AB"), ("C/D", .jstr "CD")],
     [(.jstr "AB", "A/B"), (.jstr "CD", "C/D")]⟩
    (fun s => if s == "AB" then .ok (.jobj [("code", .jstr "E")]) else .ok (.jobj
        [("code", .jstr "00000"), ("market", .jobj
          [("symbol", .jstr "CD"), ("last", .jstr "1"),
           ("volumeQty", .jstr "2"), ("volume", .jstr "3")])]))
    (.ok .jnull) ["AB", "CD"] "AB" (.jobj [("code", .jstr "E")]) (.jstr "E")
    (fun s => .jobj
        [("code", .jstr "00000"), ("market", .jobj
          [("symbol", .jstr "CD"), ("last", .jstr "1"),
           ("volumeQty", .jstr "2"), ("volume", .jstr "3")])])
    (fun s => if s == "AB" then "A/B" else "C/D")
    (fun s => ⟨1, 2, 3⟩)
    rfl rfl (by decide) (by decide) rfl rfl rfl
    (by
      intro s hs hne
      rcases List.mem_cons.mp hs with h1 | hs2
      · exact absurd h1 hne
      · rcases List.mem_cons.mp hs2 with h2 | hs3
        · subst h2
          exact ⟨rfl, rfl, by decide⟩
        · cases hs3)
    (by decide)).1
